import Mathlib

/-!
Verification of the ReinventCommunity core modules.

This file gives a shallow embedding of the two algorithmic components of the
repository and proves the specified properties about them:

* `SMILESTokenizer` (notebooks/code/data_preparation.py): the regex-driven
  SMILES tokenizer.  Strings are embedded as `List Char`.  Each of the three
  compiled patterns (`brackets`, `2_ring_nums`, `brcl`) is embedded as the
  splitting function it induces via `re.split` with a single capture group:
  the result is the alternating list of unmatched / matched fragments that
  `re.split` returns (odd positions are the matches).

* `TransformationFactory` (notebooks/code/score_transformation_code.py): the
  score-transformation registry.  Python floats are idealized as rationals;
  an operation that raises in Python (division by zero, overflow of `10 ** x`)
  is embedded as `none`, and the bare `try/except` blocks of the source map
  `none` back to the default value `0`.  A Python function call that can raise
  returns `Option _`; a parameter dict is an association list, and a missing
  key (Python `KeyError`) makes the lookup return `none`.
-/

namespace SMILESTokenizer

/-- Prepend a character to the first fragment of an alternating split list.
This realizes the step of scanning a character that is not part of any match:
it is accumulated into the current unmatched fragment. -/
def consHead (c : Char) : List (List Char) → List (List Char)
  | [] => [[c]]
  | s :: rest => (c :: s) :: rest

mutual

/-- Embedding of `re.compile(r"(\[[^\]]*\])").split`: scan left to right; at a
`[` the pattern tries to match up to the first following `]` (the character
class `[^\]]*` cannot cross a `]`); if no `]` follows, there is no match at
this position and, since no `]` occurs later, none at any later position
inside either, so the rest of the scan continues character by character. -/
def splitBrackets : List Char → List (List Char)
  | [] => [[]]
  | c :: cs => if c = '[' then inBracket [] cs else consHead c (splitBrackets cs)

/-- Scanning state inside a candidate bracket match: `acc` holds the
characters read since the opening `[` (in reverse).  A `]` closes the match
and emits it as one fragment at an odd position; running out of input means
the candidate never matches and the consumed text is plain text. -/
def inBracket : List Char → List Char → List (List Char)
  | acc, [] => ['[' :: acc.reverse]
  | acc, c :: cs =>
    if c = ']' then [] :: ('[' :: (acc.reverse ++ [']'])) :: splitBrackets cs
    else inBracket (c :: acc) cs

end

/-- Embedding of `re.compile(r"(%\d{2})").split`: a `%` followed by exactly
two decimal digits is a match (the `\d` of the source is taken on its ASCII
meaning, which is all that SMILES ring labels use). -/
def splitRing : List Char → List (List Char)
  | c1 :: c2 :: c3 :: rest =>
    if c1 = '%' ∧ c2.isDigit ∧ c3.isDigit then
      [] :: [c1, c2, c3] :: splitRing rest
    else consHead c1 (splitRing (c2 :: c3 :: rest))
  | [c1, c2] => [[c1, c2]]
  | [c] => [[c]]
  | [] => [[]]

/-- Embedding of `re.compile(r"(Br|Cl)").split`. -/
def splitBrCl : List Char → List (List Char)
  | c1 :: c2 :: rest =>
    if (c1 = 'B' ∧ c2 = 'r') ∨ (c1 = 'C' ∧ c2 = 'l') then
      [] :: [c1, c2] :: splitBrCl rest
    else consHead c1 (splitBrCl (c2 :: rest))
  | [c] => [[c]]
  | [] => [[]]

/-- The keys of the `REGEXPS` dictionary of the source. -/
inductive RegexpName
  | brackets
  | ring_nums2
  | brcl

/-- The `REGEXPS` dictionary: each compiled pattern is represented by the
splitting function it induces via `re.split`. -/
def REGEXPS : RegexpName → List Char → List (List Char)
  | .brackets => splitBrackets
  | .ring_nums2 => splitRing
  | .brcl => splitBrCl

/-- The `REGEXP_ORDER` list of the source (`"2_ring_nums"` is spelled
`ring_nums2` here). -/
def REGEXP_ORDER : List RegexpName := [.brackets, .ring_nums2, .brcl]

/-- The enumerate loop of `split_by`: fragments at even positions (unmatched
text) are recursively split by the remaining patterns via `f`; fragments at
odd positions (matches of the current pattern) are appended as tokens. -/
def goAlt (f : List Char → List (List Char)) : List (List Char) → List (List Char)
  | [] => []
  | [x] => f x
  | x :: m :: xs => f x ++ m :: goAlt f xs

/-- The nested `split_by` function of `SMILESTokenizer.tokenize`: with no
patterns left it splits into single characters (`list(smiles)`); otherwise it
splits by the first pattern and recurses on the unmatched fragments. -/
def split_by : List RegexpName → List Char → List (List Char)
  | [], cs => cs.map fun c => [c]
  | r :: rest, cs => goAlt (fun t => split_by rest t) (REGEXPS r cs)

/-- The method `SMILESTokenizer.tokenize`. -/
def tokenize (smiles : List Char) (with_begin_and_end : Bool := true) : List (List Char) :=
  let tokens := split_by REGEXP_ORDER smiles
  if with_begin_and_end then [['^']] ++ tokens ++ [['$']] else tokens

/-- The method `SMILESTokenizer.untokenize`: concatenate the tokens, breaking
at the first `"$"` token and skipping every `"^"` token. -/
def untokenize : List (List Char) → List Char
  | [] => []
  | t :: ts =>
    if t = ['$'] then []
    else if t = ['^'] then untokenize ts
    else t ++ untokenize ts

/-- Invariant of an alternating split list: every fragment at an odd position
(a pattern match) is a non-empty string. -/
def oddNE : List (List Char) → Prop
  | [] => True
  | [_] => True
  | _ :: m :: rest => m ≠ [] ∧ oddNE rest

end SMILESTokenizer

namespace TransformationFactory

/-- A value stored in a Python parameter dict: a number or a string. -/
inductive PValue
  | num (q : ℚ)
  | str (s : String)
deriving DecidableEq

/-- A Python parameter dict, embedded as an association list. -/
abbrev Params := List (String × PValue)

/-- Dictionary lookup; `none` is Python's `KeyError`. -/
def lookupAssoc {α : Type} : List (String × α) → String → Option α
  | [], _ => none
  | (k, v) :: rest, key => if key = k then some v else lookupAssoc rest key

/-- Lookup of a numeric parameter (`parameters[key]` used as a number). -/
def lookupNum (parameters : Params) (key : String) : Option ℚ :=
  match lookupAssoc parameters key with
  | some (PValue.num q) => some q
  | _ => none

/-- Constant `ComponentSpecificParametersEnum.LOW`. -/
def LOW : String := "low"

/-- Constant `ComponentSpecificParametersEnum.HIGH`. -/
def HIGH : String := "high"

/-- Constant `ComponentSpecificParametersEnum.K`. -/
def K : String := "k"

/-- Constant `ComponentSpecificParametersEnum.COEF_DIV`. -/
def COEF_DIV : String := "coef_div"

/-- Constant `ComponentSpecificParametersEnum.COEF_SI`. -/
def COEF_SI : String := "coef_si"

/-- Constant `ComponentSpecificParametersEnum.COEF_SE`. -/
def COEF_SE : String := "coef_se"

/-- Constant `ComponentSpecificParametersEnum.TRANSFORMATION_TYPE`. -/
def TRANSFORMATION_TYPE : String := "transformation_type"

/-- Python float division; dividing by zero raises `ZeroDivisionError`,
embedded as `none`. -/
def safeDiv (a b : ℚ) : Option ℚ := if b = 0 then none else some (a / b)

/-- Model of the Python float expression `10 ** x` (and `math.pow(10, x)`)
in the rational idealization: exact for integer exponents below the float
overflow threshold (`10.0 ** 309` raises `OverflowError` in Python, embedded
as `none`); a non-integer exponent has an irrational value that the rational
idealization cannot represent, so it is conservatively also embedded as an
arithmetic fault. -/
def pow10 (x : ℚ) : Option ℚ :=
  if x.den = 1 ∧ x.num ≤ 308 then some ((10 : ℚ) ^ x.num) else none

/-- Method `TransformationFactory.no_transformation`: the identity cast. -/
def no_transformation (predictions : List ℚ) (_parameters : Params) : Option (List ℚ) :=
  some predictions

/-- The nested `_right_step_formula` of `right_step`. -/
def right_step_formula (value low : ℚ) : ℚ :=
  if value ≥ low then 1 else 0

/-- Method `TransformationFactory.right_step`: looks up `low` (a missing key
raises, aborting the call), then applies the step formula elementwise. -/
def right_step (predictions : List ℚ) (parameters : Params) : Option (List ℚ) := do
  let low ← lookupNum parameters LOW
  pure (predictions.map fun value => right_step_formula value low)

/-- The nested `_right_step_formula` of `step` (the source reuses the inner
name for the two-sided test). -/
def step_formula (value low high : ℚ) : ℚ :=
  if low ≤ value ∧ value ≤ high then 1 else 0

/-- Method `TransformationFactory.step`. -/
def step (predictions : List ℚ) (parameters : Params) : Option (List ℚ) := do
  let low ← lookupNum parameters LOW
  let high ← lookupNum parameters HIGH
  pure (predictions.map fun value => step_formula value low high)

/-- The nested `_exp` of `sigmoid_transformation`:
`math.pow(10, (10 * k * (pred_val - (low + high) * 0.5) / (low - high)))`.
The division faults when `low = high` and the power can overflow; there is no
`try/except` around it, so a fault propagates. -/
def sigmoid_exp (pred_val low high k : ℚ) : Option ℚ := do
  let e ← safeDiv (10 * k * (pred_val - (low + high) * (1 / 2))) (low - high)
  pow10 e

/-- One element of the `sigmoid_transformation` comprehension:
`1 / (1 + _exp(pred_val, low, high, k))`, with no fault containment. -/
def sigmoid_element (pred_val low high k : ℚ) : Option ℚ := do
  let e ← sigmoid_exp pred_val low high k
  safeDiv 1 (1 + e)

/-- Method `TransformationFactory.sigmoid_transformation`: parameter lookups,
then the elementwise comprehension; an arithmetic fault in any element
propagates and aborts the whole call. -/
def sigmoid_transformation (predictions : List ℚ) (parameters : Params) : Option (List ℚ) := do
  let low ← lookupNum parameters LOW
  let high ← lookupNum parameters HIGH
  let k ← lookupNum parameters K
  predictions.mapM fun pred_val => sigmoid_element pred_val low high k

/-- The body of the `try` block of `_reverse_sigmoid_formula`:
`1 / (1 + 10 ** (k * (value - (high + low) / 2) * 10 / (high - low)))`. -/
def reverse_sigmoid_raw (value low high k : ℚ) : Option ℚ := do
  let e ← safeDiv (k * (value - (high + low) / 2) * 10) (high - low)
  let p ← pow10 e
  safeDiv 1 (1 + p)

/-- The nested `_reverse_sigmoid_formula` of `reverse_sigmoid_transformation`:
the bare `except` turns any arithmetic fault into the value `0`. -/
def reverse_sigmoid_formula (value low high k : ℚ) : ℚ :=
  (reverse_sigmoid_raw value low high k).getD 0

/-- Method `TransformationFactory.reverse_sigmoid_transformation`. -/
def reverse_sigmoid_transformation (predictions : List ℚ) (parameters : Params) :
    Option (List ℚ) := do
  let low ← lookupNum parameters LOW
  let high ← lookupNum parameters HIGH
  let k ← lookupNum parameters K
  pure (predictions.map fun pred_val => reverse_sigmoid_formula pred_val low high k)

/-- The body of the `try` block of `_double_sigmoid_formula`:
`A = 10 ** (coef_se * (value / coef_div))`,
`B = A + 10 ** (coef_se * (low / coef_div))`,
`C = 10 ** (coef_si * (value / coef_div)) /
     (10 ** (coef_si * (value / coef_div)) + 10 ** (coef_si * (high / coef_div)))`,
result `A / B - C` (the source recomputes the first power inside `B`; the
recomputation is deterministic, so it is shared here). -/
def double_sigmoid_raw (value low high coef_div coef_si coef_se : ℚ) : Option ℚ := do
  let tv ← safeDiv value coef_div
  let a ← pow10 (coef_se * tv)
  let tl ← safeDiv low coef_div
  let pl ← pow10 (coef_se * tl)
  let nv ← pow10 (coef_si * tv)
  let th ← safeDiv high coef_div
  let ph ← pow10 (coef_si * th)
  let c ← safeDiv nv (nv + ph)
  let ab ← safeDiv a (a + pl)
  pure (ab - c)

/-- The nested `_double_sigmoid_formula` of `double_sigmoid`, with its default
coefficient values; the bare `except` turns any arithmetic fault into `0`. -/
def double_sigmoid_formula (value low high : ℚ) (coef_div : ℚ := 100)
    (coef_si : ℚ := 150) (coef_se : ℚ := 150) : ℚ :=
  (double_sigmoid_raw value low high coef_div coef_si coef_se).getD 0

/-- Method `TransformationFactory.double_sigmoid`: all five numeric parameters
are looked up explicitly (so the defaults of the inner formula are never used
on this path), then the formula is applied elementwise. -/
def double_sigmoid (predictions : List ℚ) (parameters : Params) : Option (List ℚ) := do
  let low ← lookupNum parameters LOW
  let high ← lookupNum parameters HIGH
  let coef_div ← lookupNum parameters COEF_DIV
  let coef_si ← lookupNum parameters COEF_SI
  let coef_se ← lookupNum parameters COEF_SE
  pure (predictions.map fun pred_val =>
    double_sigmoid_formula pred_val low high coef_div coef_si coef_se)

/-- The closed set of transformation kinds (`TransformationTypeEnum`). -/
inductive TransformationType
  | sigmoid
  | reverse_sigmoid
  | double_sigmoid
  | no_transformation
  | right_step
  | step
deriving DecidableEq

/-- The string constant of `TransformationTypeEnum` naming each kind. -/
def transformation_type_name : TransformationType → String
  | .sigmoid => "sigmoid"
  | .reverse_sigmoid => "reverse_sigmoid"
  | .double_sigmoid => "double_sigmoid"
  | .no_transformation => "no_transformation"
  | .right_step => "right_step"
  | .step => "step"

/-- The registry built by `_default_transformation_function_registry`: a fixed
mapping from kind names to the six bound methods, represented by their kind. -/
def default_transformation_function_registry : List (String × TransformationType) :=
  [("sigmoid", .sigmoid),
   ("reverse_sigmoid", .reverse_sigmoid),
   ("double_sigmoid", .double_sigmoid),
   ("no_transformation", .no_transformation),
   ("right_step", .right_step),
   ("step", .step)]

/-- The function each registry entry stands for. -/
def apply_transformation : TransformationType → List ℚ → Params → Option (List ℚ)
  | .sigmoid => sigmoid_transformation
  | .reverse_sigmoid => reverse_sigmoid_transformation
  | .double_sigmoid => double_sigmoid
  | .no_transformation => no_transformation
  | .right_step => right_step
  | .step => step

/-- Method `TransformationFactory.get_transformation_function`:
`parameters["transformation_type"]` (a missing key raises), then a lookup in
the fixed registry (an unregistered name raises). -/
def get_transformation_function (parameters : Params) : Option TransformationType :=
  match lookupAssoc parameters TRANSFORMATION_TYPE with
  | some (PValue.str s) => lookupAssoc default_transformation_function_registry s
  | _ => none

end TransformationFactory

namespace SMILESTokenizer

theorem flatten_consHead (c : Char) : ∀ l : List (List Char),
    (consHead c l).flatten = c :: l.flatten
  | [] => rfl
  | s :: rest => by simp [consHead]

theorem flatten_splitBrackets_aux : ∀ cs : List Char,
    (splitBrackets cs).flatten = cs ∧
      ∀ acc : List Char, (inBracket acc cs).flatten = '[' :: (acc.reverse ++ cs) := by
  intro cs
  induction cs with
  | nil =>
    refine ⟨rfl, fun acc => ?_⟩
    simp [inBracket]
  | cons c cs ih =>
    obtain ⟨ih1, ih2⟩ := ih
    refine ⟨?_, fun acc => ?_⟩
    · by_cases h : c = '['
      · subst h
        simpa [splitBrackets] using ih2 []
      · simp [splitBrackets, h, flatten_consHead, ih1]
    · by_cases h : c = ']'
      · subst h
        simp [inBracket, ih1]
      · have := ih2 (c :: acc)
        simp only [inBracket, if_neg h]
        simpa using this

theorem flatten_splitBrackets (cs : List Char) : (splitBrackets cs).flatten = cs :=
  (flatten_splitBrackets_aux cs).1

theorem flatten_splitRing : ∀ cs : List Char, (splitRing cs).flatten = cs := by
  intro cs
  induction cs using splitRing.induct with
  | case1 c1 c2 c3 rest h ih => simp [splitRing, h, ih]
  | case2 c1 c2 c3 rest h ih => simp [splitRing, h, flatten_consHead, ih]
  | case3 c1 c2 => rfl
  | case4 c => rfl
  | case5 => rfl

theorem flatten_splitBrCl : ∀ cs : List Char, (splitBrCl cs).flatten = cs := by
  intro cs
  induction cs using splitBrCl.induct with
  | case1 c1 c2 rest h ih => simp [splitBrCl, h, ih]
  | case2 c1 c2 rest h ih => simp [splitBrCl, h, flatten_consHead, ih]
  | case3 c => rfl
  | case4 => rfl

theorem flatten_goAlt (f : List Char → List (List Char)) (hf : ∀ x, (f x).flatten = x) :
    ∀ l : List (List Char), (goAlt f l).flatten = l.flatten
  | [] => rfl
  | [x] => by simp [goAlt, hf]
  | x :: m :: xs => by
    simp [goAlt, hf, flatten_goAlt f hf xs]

theorem flatten_map_singleton : ∀ cs : List Char, (cs.map fun c => [c]).flatten = cs
  | [] => rfl
  | c :: cs => by simp [flatten_map_singleton cs]

theorem flatten_split_by : ∀ (rs : List RegexpName) (cs : List Char),
    (split_by rs cs).flatten = cs
  | [], cs => by simpa [split_by] using flatten_map_singleton cs
  | r :: rest, cs => by
    rw [split_by, flatten_goAlt _ fun t => flatten_split_by rest t]
    cases r with
    | brackets => exact flatten_splitBrackets cs
    | ring_nums2 => exact flatten_splitRing cs
    | brcl => exact flatten_splitBrCl cs

theorem untokenize_flatten : ∀ ts : List (List Char),
    (∀ t ∈ ts, t ≠ ['$'] ∧ t ≠ ['^']) → untokenize ts = ts.flatten
  | [], _ => rfl
  | t :: ts, h => by
    have h1 := h t (by simp)
    rw [untokenize, if_neg h1.1, if_neg h1.2,
      untokenize_flatten ts fun u hu => h u (by simp [hu])]
    simp

theorem oddNE_consHead (c : Char) : ∀ l : List (List Char), oddNE l → oddNE (consHead c l)
  | [], _ => by simp [consHead, oddNE]
  | [s], _ => by simp [consHead, oddNE]
  | s :: m :: r, h => by simpa [consHead, oddNE] using h

theorem oddNE_splitBrackets_aux : ∀ cs : List Char,
    oddNE (splitBrackets cs) ∧ ∀ acc : List Char, oddNE (inBracket acc cs) := by
  intro cs
  induction cs with
  | nil => exact ⟨trivial, fun acc => trivial⟩
  | cons c cs ih =>
    obtain ⟨ih1, ih2⟩ := ih
    refine ⟨?_, fun acc => ?_⟩
    · by_cases h : c = '['
      · subst h
        simpa [splitBrackets] using ih2 []
      · simp only [splitBrackets, if_neg h]
        exact oddNE_consHead c _ ih1
    · by_cases h : c = ']'
      · subst h
        simpa [inBracket, oddNE] using ih1
      · simp only [inBracket, if_neg h]
        exact ih2 (c :: acc)

theorem oddNE_splitRing : ∀ cs : List Char, oddNE (splitRing cs) := by
  intro cs
  induction cs using splitRing.induct with
  | case1 c1 c2 c3 rest h ih => simpa [splitRing, h, oddNE] using ih
  | case2 c1 c2 c3 rest h ih =>
    simp only [splitRing, if_neg h]
    exact oddNE_consHead c1 _ ih
  | case3 c1 c2 => trivial
  | case4 c => trivial
  | case5 => trivial

theorem oddNE_splitBrCl : ∀ cs : List Char, oddNE (splitBrCl cs) := by
  intro cs
  induction cs using splitBrCl.induct with
  | case1 c1 c2 rest h ih => simpa [splitBrCl, h, oddNE] using ih
  | case2 c1 c2 rest h ih =>
    simp only [splitBrCl, if_neg h]
    exact oddNE_consHead c1 _ ih
  | case3 c => trivial
  | case4 => trivial

theorem goAlt_mem_ne_nil (f : List Char → List (List Char))
    (hf : ∀ x t, t ∈ f x → t ≠ []) :
    ∀ l : List (List Char), oddNE l → ∀ t ∈ goAlt f l, t ≠ []
  | [], _, t, ht => by simp [goAlt] at ht
  | [x], _, t, ht => hf x t (by simpa [goAlt] using ht)
  | x :: m :: xs, h, t, ht => by
    obtain ⟨hm, hxs⟩ : m ≠ [] ∧ oddNE xs := h
    rw [goAlt] at ht
    rcases List.mem_append.mp ht with h1 | h2
    · exact hf x t h1
    · rcases List.mem_cons.mp h2 with rfl | h3
      · exact hm
      · exact goAlt_mem_ne_nil f hf xs hxs t h3

theorem split_by_ne_nil : ∀ (rs : List RegexpName) (cs : List Char),
    ∀ t ∈ split_by rs cs, t ≠ []
  | [], cs, t, ht => by
    simp only [split_by, List.mem_map] at ht
    obtain ⟨c, _, rfl⟩ := ht
    simp
  | r :: rest, cs, t, ht => by
    refine goAlt_mem_ne_nil _ (fun x u hu => split_by_ne_nil rest x u hu)
      (REGEXPS r cs) ?_ t (by simpa [split_by] using ht)
    cases r with
    | brackets => exact (oddNE_splitBrackets_aux cs).1
    | ring_nums2 => exact oddNE_splitRing cs
    | brcl => exact oddNE_splitBrCl cs

theorem inBracket_closes : ∀ (v acc rest : List Char), ']' ∉ v →
    inBracket acc (v ++ ']' :: rest) =
      [] :: ('[' :: (acc.reverse ++ (v ++ [']']))) :: splitBrackets rest
  | [], acc, rest, _ => by simp [inBracket]
  | c :: v, acc, rest, h => by
    have hc : c ≠ ']' := fun e => h (by simp [e])
    have h' : ']' ∉ v := fun hv => h (by simp [hv])
    simp only [List.cons_append, inBracket, if_neg hc, List.append_eq]
    rw [inBracket_closes v (c :: acc) rest h']
    simp

/-- Claim C1: for every string with no `^` and no `$` character, untokenizing
the sentinel-free tokenization reproduces the string exactly: segmentation is
lossless, no character dropped or duplicated. -/
theorem c1_roundtrip (s : List Char) (h1 : '^' ∉ s) (h2 : '$' ∉ s) :
    untokenize (tokenize s false) = s := by
  have hflat : (split_by REGEXP_ORDER s).flatten = s := flatten_split_by _ _
  have htok : tokenize s false = split_by REGEXP_ORDER s := rfl
  rw [htok, untokenize_flatten]
  · exact hflat
  · intro t ht
    constructor
    · rintro rfl
      refine absurd ?_ h2
      have : '$' ∈ (split_by REGEXP_ORDER s).flatten :=
        List.mem_flatten.mpr ⟨['$'], ht, by simp⟩
      rwa [hflat] at this
    · rintro rfl
      refine absurd ?_ h1
      have : '^' ∈ (split_by REGEXP_ORDER s).flatten :=
        List.mem_flatten.mpr ⟨['^'], ht, by simp⟩
      rwa [hflat] at this

theorem c1_roundtrip_witness :
    ('^' ∉ "C[NH2+]Cl%12C".toList ∧ '$' ∉ "C[NH2+]Cl%12C".toList) ∧
      untokenize (tokenize "C[NH2+]Cl%12C".toList false) = "C[NH2+]Cl%12C".toList :=
  ⟨⟨by decide, by decide⟩, c1_roundtrip _ (by decide) (by decide)⟩

/-- Claim C5: a substring delimited by `[` and the next `]` is emitted as one
atomic token whatever its contents (first conjunct, for an arbitrary bracket
body), and segments matched by a category are never re-examined by a
lower-precedence category: `[NH2+]` stays whole, and a `Cl` or `%12` inside a
bracket token is not split out of it, while outside brackets the ring-label
and halogen patterns each emit their matches as single atomic tokens. -/
theorem c5_bracket_atomic (v : List Char) (h : ']' ∉ v) :
    tokenize ('[' :: (v ++ [']'])) false = ['[' :: (v ++ [']'])] ∧
    tokenize "C[NH2+]C".toList false = ["C".toList, "[NH2+]".toList, "C".toList] ∧
    tokenize "C[Cl%12]C".toList false = ["C".toList, "[Cl%12]".toList, "C".toList] ∧
    tokenize "C%12Cl".toList false = ["C".toList, "%12".toList, "Cl".toList] := by
  refine ⟨?_, by decide, by decide, by decide⟩
  have hsb : splitBrackets ('[' :: (v ++ [']'])) =
      [] :: ('[' :: (v ++ [']'])) :: [[]] := by
    have hb : splitBrackets ('[' :: (v ++ [']'])) = inBracket [] (v ++ [']']) := by
      simp [splitBrackets]
    rw [hb, show v ++ [']'] = v ++ ']' :: [] from rfl, inBracket_closes v [] [] h]
    simp [splitBrackets]
  have ht : tokenize ('[' :: (v ++ [']'])) false =
      goAlt (fun t => split_by [RegexpName.ring_nums2, RegexpName.brcl] t)
        (splitBrackets ('[' :: (v ++ [']']))) := rfl
  rw [ht, hsb]
  rfl

theorem c5_bracket_atomic_witness :
    (']' ∉ "NH2+".toList) ∧
      tokenize ('[' :: ("NH2+".toList ++ [']'])) false = ['[' :: ("NH2+".toList ++ [']'])] :=
  ⟨by decide, (c5_bracket_atomic "NH2+".toList (by decide)).1⟩

/-- Claim C6: untokenize concatenates the tokens in order, skipping every `^`
token wherever it occurs and stopping at the first `$` token, discarding all
tokens after it; with no sentinel tokens it concatenates everything. -/
theorem c6_untokenize_spec (ts : List (List Char)) :
    untokenize ts =
      ((ts.takeWhile fun t => t ≠ ['$']).filter fun t => t ≠ ['^']).flatten := by
  induction ts with
  | nil => rfl
  | cons t ts ih =>
    by_cases h1 : t = ['$']
    · subst h1
      simp [untokenize, List.takeWhile]
    · by_cases h2 : t = ['^']
      · subst h2
        simp [untokenize, List.takeWhile, List.filter, ih]
      · simp [untokenize, List.takeWhile, List.filter, h1, h2, ih]

/-- Claim C10: every token produced by sentinel-free tokenization is a
non-empty string; the empty fragments produced around the regex matches
dissolve into zero fallback tokens instead of surfacing as empty tokens. -/
theorem c10_tokens_nonempty (s t : List Char) (h : t ∈ tokenize s false) : t ≠ [] :=
  split_by_ne_nil REGEXP_ORDER s t (by simpa [tokenize] using h)

theorem c10_tokens_nonempty_witness :
    ("Cl".toList ∈ tokenize "C%12Cl".toList false) ∧ "Cl".toList ≠ ([] : List Char) :=
  ⟨by decide, c10_tokens_nonempty "C%12Cl".toList "Cl".toList (by decide)⟩

end SMILESTokenizer

namespace TransformationFactory

theorem sigmoid_low_eq_high_aborts :
    sigmoid_transformation [(0 : ℚ)]
      [(LOW, PValue.num 1), (HIGH, PValue.num 1), (K, PValue.num 1)] = none := by
  have h1 : ((1 : ℚ) - 1) = 0 := by norm_num
  norm_num [sigmoid_transformation, lookupNum, lookupAssoc, LOW, HIGH, K,
    List.mapM, List.mapM.loop, sigmoid_element, sigmoid_exp, safeDiv, h1]

/-- Claim C2 counterexample: with `low == high` (required keys all present),
`sigmoid_transformation` hits an uncontained division by zero and the whole
call raises (`none`) instead of producing a defaulted element, so not every
transformation function is total. -/
theorem c2_counterexample :
    sigmoid_transformation [(0 : ℚ)]
      [(LOW, PValue.num 1), (HIGH, PValue.num 1), (K, PValue.num 1)] = none :=
  sigmoid_low_eq_high_aborts

/-- Claim C2, amended: five of the six transformation functions are total
given their required keys — `no_transformation`, `right_step`, `step` never
fault, and `reverse_sigmoid_transformation` / `double_sigmoid` default any
faulting element — each returning one element per input score; but
`sigmoid_transformation` has no fault containment: an arithmetic fault (for
example `low == high`) aborts the whole call. -/
theorem c2_totality_amended (preds : List ℚ) (p : Params) (l h k dv si se : ℚ)
    (hl : lookupNum p LOW = some l) (hh : lookupNum p HIGH = some h)
    (hk : lookupNum p K = some k) (hdv : lookupNum p COEF_DIV = some dv)
    (hsi : lookupNum p COEF_SI = some si) (hse : lookupNum p COEF_SE = some se) :
    no_transformation preds p = some preds ∧
    (∃ r, right_step preds p = some r ∧ r.length = preds.length) ∧
    (∃ r, step preds p = some r ∧ r.length = preds.length) ∧
    (∃ r, reverse_sigmoid_transformation preds p = some r ∧ r.length = preds.length) ∧
    (∃ r, double_sigmoid preds p = some r ∧ r.length = preds.length) ∧
    sigmoid_transformation [(0 : ℚ)]
      [(LOW, PValue.num 1), (HIGH, PValue.num 1), (K, PValue.num 1)] = none := by
  refine ⟨rfl,
    ⟨preds.map fun value => right_step_formula value l, ?_, by simp⟩,
    ⟨preds.map fun value => step_formula value l h, ?_, by simp⟩,
    ⟨preds.map fun pred_val => reverse_sigmoid_formula pred_val l h k, ?_, by simp⟩,
    ⟨preds.map fun pred_val => double_sigmoid_formula pred_val l h dv si se, ?_, by simp⟩,
    sigmoid_low_eq_high_aborts⟩
  · simp [right_step, hl]
  · simp [step, hl, hh]
  · simp [reverse_sigmoid_transformation, hl, hh, hk]
  · simp [double_sigmoid, hl, hh, hdv, hsi, hse]

theorem c2_totality_amended_witness :
    ∃ r, double_sigmoid [(3 : ℚ), 4]
      [(LOW, PValue.num 1), (HIGH, PValue.num 2), (K, PValue.num 1),
       (COEF_DIV, PValue.num 100), (COEF_SI, PValue.num 150), (COEF_SE, PValue.num 150)]
      = some r ∧ r.length = 2 :=
  (c2_totality_amended [(3 : ℚ), 4]
    [(LOW, PValue.num 1), (HIGH, PValue.num 2), (K, PValue.num 1),
     (COEF_DIV, PValue.num 100), (COEF_SI, PValue.num 150), (COEF_SE, PValue.num 150)]
    1 2 1 100 150 150 rfl rfl rfl rfl rfl rfl).2.2.2.2.1

theorem reverse_sigmoid_overflow_example :
    reverse_sigmoid_transformation [(1 : ℚ), 63]
      [(LOW, PValue.num 0), (HIGH, PValue.num 2), (K, PValue.num 1)] = some [1 / 2, 0] := by
  have e1 : reverse_sigmoid_transformation [(1 : ℚ), 63]
      [(LOW, PValue.num 0), (HIGH, PValue.num 2), (K, PValue.num 1)] =
      some [reverse_sigmoid_formula 1 0 2 1, reverse_sigmoid_formula 63 0 2 1] := rfl
  have e2 : reverse_sigmoid_formula 1 0 2 1 = 1 / 2 := by
    unfold reverse_sigmoid_formula reverse_sigmoid_raw
    norm_num [safeDiv, pow10, Option.some_bind, Option.none_bind,
      Rat.den_ofNat, Rat.num_ofNat]
  have e3 : reverse_sigmoid_formula 63 0 2 1 = 0 := by
    unfold reverse_sigmoid_formula reverse_sigmoid_raw
    norm_num [safeDiv, pow10, Option.some_bind, Option.none_bind,
      Rat.den_ofNat, Rat.num_ofNat]
  rw [e1, e2, e3]

/-- Claim C3: in `reverse_sigmoid_transformation` and `double_sigmoid` an
arithmetic fault while evaluating one element is contained: that element
becomes `0.0`, the whole call succeeds with one element per input score, and
non-faulting elements are unaffected.  The closing conjunct is a concrete
mixed sequence: at `low=0, high=2, k=1` the element `1` evaluates normally to
`1/2` while the element `63` overflows (`10 ** 310`) and is defaulted to 0. -/
theorem c3_fault_containment (preds : List ℚ) (p : Params) (l h k dv si se : ℚ)
    (hl : lookupNum p LOW = some l) (hh : lookupNum p HIGH = some h)
    (hk : lookupNum p K = some k) (hdv : lookupNum p COEF_DIV = some dv)
    (hsi : lookupNum p COEF_SI = some si) (hse : lookupNum p COEF_SE = some se) :
    (∃ r, reverse_sigmoid_transformation preds p = some r ∧ r.length = preds.length ∧
      ∀ (i : Nat) (v : ℚ), preds[i]? = some v →
        (reverse_sigmoid_raw v l h k = none → r[i]? = some 0) ∧
        ∀ q, reverse_sigmoid_raw v l h k = some q → r[i]? = some q) ∧
    (∃ r, double_sigmoid preds p = some r ∧ r.length = preds.length ∧
      ∀ (i : Nat) (v : ℚ), preds[i]? = some v →
        (double_sigmoid_raw v l h dv si se = none → r[i]? = some 0) ∧
        ∀ q, double_sigmoid_raw v l h dv si se = some q → r[i]? = some q) ∧
    reverse_sigmoid_transformation [(1 : ℚ), 63]
      [(LOW, PValue.num 0), (HIGH, PValue.num 2), (K, PValue.num 1)] = some [1 / 2, 0] := by
  refine ⟨⟨preds.map fun pred_val => reverse_sigmoid_formula pred_val l h k, ?_, by simp, ?_⟩,
    ⟨preds.map fun pred_val => double_sigmoid_formula pred_val l h dv si se, ?_, by simp, ?_⟩,
    reverse_sigmoid_overflow_example⟩
  · simp [reverse_sigmoid_transformation, hl, hh, hk]
  · intro i v hv
    refine ⟨fun hraw => ?_, fun q hq => ?_⟩
    · simp [List.getElem?_map, hv, reverse_sigmoid_formula, hraw]
    · simp [List.getElem?_map, hv, reverse_sigmoid_formula, hq]
  · simp [double_sigmoid, hl, hh, hdv, hsi, hse]
  · intro i v hv
    refine ⟨fun hraw => ?_, fun q hq => ?_⟩
    · simp [List.getElem?_map, hv, double_sigmoid_formula, hraw]
    · simp [List.getElem?_map, hv, double_sigmoid_formula, hq]

theorem c3_fault_containment_witness :
    reverse_sigmoid_transformation [(1 : ℚ), 63]
      [(LOW, PValue.num 0), (HIGH, PValue.num 2), (K, PValue.num 1)] = some [1 / 2, 0] :=
  (c3_fault_containment [] [(LOW, PValue.num 0), (HIGH, PValue.num 2), (K, PValue.num 1),
      (COEF_DIV, PValue.num 100), (COEF_SI, PValue.num 150), (COEF_SE, PValue.num 150)]
    0 2 1 100 150 150 rfl rfl rfl rfl rfl rfl).2.2

/-- Claim C7: `right_step` maps each element to 1 when it is at least `low`
and to 0 otherwise, and `step` maps each element to 1 exactly inside the
closed interval from `low` to `high`, including the two concrete evaluations
of the specification. -/
theorem c7_step_functions (preds : List ℚ) (l h : ℚ) :
    right_step preds [(LOW, PValue.num l)] =
      some (preds.map fun value => if value ≥ l then (1 : ℚ) else 0) ∧
    step preds [(LOW, PValue.num l), (HIGH, PValue.num h)] =
      some (preds.map fun value => if l ≤ value ∧ value ≤ h then (1 : ℚ) else 0) ∧
    right_step [(0 : ℚ), 5, 10] [(LOW, PValue.num 5)] = some [0, 1, 1] ∧
    step [(0 : ℚ), 5, 10] [(LOW, PValue.num 4), (HIGH, PValue.num 9)] = some [0, 1, 0] := by
  refine ⟨rfl, rfl, ?_, ?_⟩
  · have h1 : right_step [(0 : ℚ), 5, 10] [(LOW, PValue.num 5)] =
        some ([(0 : ℚ), 5, 10].map fun value => right_step_formula value 5) := rfl
    rw [h1]
    norm_num [right_step_formula]
  · have h1 : step [(0 : ℚ), 5, 10] [(LOW, PValue.num 4), (HIGH, PValue.num 9)] =
        some ([(0 : ℚ), 5, 10].map fun value => step_formula value 4 9) := rfl
    rw [h1]
    norm_num [step_formula]

/-- Claim C9: calling a transformation function with a parameter mapping that
lacks one of its required numeric keys fails with a lookup error for that
call; in particular `double_sigmoid` fails when any coefficient key is
missing, so no implicit default is supplied on the registry path even though
the inner formula carries default coefficient values. -/
theorem c9_missing_parameter (preds : List ℚ) (p : Params) :
    (lookupNum p LOW = none →
      right_step preds p = none ∧ step preds p = none ∧
      sigmoid_transformation preds p = none ∧
      reverse_sigmoid_transformation preds p = none ∧ double_sigmoid preds p = none) ∧
    (lookupNum p HIGH = none →
      step preds p = none ∧ sigmoid_transformation preds p = none ∧
      reverse_sigmoid_transformation preds p = none ∧ double_sigmoid preds p = none) ∧
    (lookupNum p K = none →
      sigmoid_transformation preds p = none ∧
      reverse_sigmoid_transformation preds p = none) ∧
    (lookupNum p COEF_DIV = none → double_sigmoid preds p = none) ∧
    (lookupNum p COEF_SI = none → double_sigmoid preds p = none) ∧
    (lookupNum p COEF_SE = none → double_sigmoid preds p = none) := by
  refine ⟨fun h0 => ⟨?_, ?_, ?_, ?_, ?_⟩, fun h0 => ⟨?_, ?_, ?_, ?_⟩,
    fun h0 => ⟨?_, ?_⟩, fun h0 => ?_, fun h0 => ?_, fun h0 => ?_⟩
  · simp [right_step, h0]
  · simp [step, h0]
  · simp [sigmoid_transformation, h0]
  · simp [reverse_sigmoid_transformation, h0]
  · simp [double_sigmoid, h0]
  · cases h1 : lookupNum p LOW <;> simp [step, h1, h0]
  · cases h1 : lookupNum p LOW <;> simp [sigmoid_transformation, h1, h0]
  · cases h1 : lookupNum p LOW <;> simp [reverse_sigmoid_transformation, h1, h0]
  · cases h1 : lookupNum p LOW <;> simp [double_sigmoid, h1, h0]
  · cases h1 : lookupNum p LOW <;> cases h2 : lookupNum p HIGH <;>
      simp [sigmoid_transformation, h1, h2, h0]
  · cases h1 : lookupNum p LOW <;> cases h2 : lookupNum p HIGH <;>
      simp [reverse_sigmoid_transformation, h1, h2, h0]
  · cases h1 : lookupNum p LOW <;> cases h2 : lookupNum p HIGH <;>
      simp [double_sigmoid, h1, h2, h0]
  · cases h1 : lookupNum p LOW <;> cases h2 : lookupNum p HIGH <;>
      cases h3 : lookupNum p COEF_DIV <;> simp [double_sigmoid, h1, h2, h3, h0]
  · cases h1 : lookupNum p LOW <;> cases h2 : lookupNum p HIGH <;>
      cases h3 : lookupNum p COEF_DIV <;> cases h4 : lookupNum p COEF_SI <;>
      simp [double_sigmoid, h1, h2, h3, h4, h0]

theorem c9_missing_parameter_witness :
    lookupNum [] LOW = none ∧ right_step [(0 : ℚ)] [] = none ∧
      double_sigmoid [(0 : ℚ)] [] = none :=
  ⟨rfl, ((c9_missing_parameter [(0 : ℚ)] []).1 rfl).1,
    ((c9_missing_parameter [(0 : ℚ)] []).1 rfl).2.2.2.2⟩

/-- Claim C4: resolution fails with a lookup error, propagated to the caller,
whenever `transformation_type` is absent or maps to a value that is not one
of the six registered kinds; a successful resolution always returns exactly
the kind whose name was supplied, so no default transform is ever silently
substituted. -/
theorem c4_resolution :
    get_transformation_function [(TRANSFORMATION_TYPE, PValue.str "bogus")] = none ∧
    (∀ p : Params, lookupAssoc p TRANSFORMATION_TYPE = none →
      get_transformation_function p = none) ∧
    (∀ (p : Params) (q : ℚ), lookupAssoc p TRANSFORMATION_TYPE = some (PValue.num q) →
      get_transformation_function p = none) ∧
    (∀ (p : Params) (t : TransformationType), get_transformation_function p = some t →
      lookupAssoc p TRANSFORMATION_TYPE = some (PValue.str (transformation_type_name t))) := by
  refine ⟨rfl, fun p hp => ?_, fun p q hp => ?_, fun p t ht => ?_⟩
  · simp [get_transformation_function, hp]
  · simp [get_transformation_function, hp]
  · unfold get_transformation_function at ht
    cases hl : lookupAssoc p TRANSFORMATION_TYPE with
    | none => rw [hl] at ht; exact absurd ht (by simp)
    | some v =>
      cases v with
      | num q => rw [hl] at ht; simp at ht
      | str s =>
        rw [hl] at ht
        have hs : s = transformation_type_name t := by
          simp only [default_transformation_function_registry, lookupAssoc] at ht
          split_ifs at ht with h1 h2 h3 h4 h5 h6
          · injection ht with ht2; subst ht2; rw [h1]; rfl
          · injection ht with ht2; subst ht2; rw [h2]; rfl
          · injection ht with ht2; subst ht2; rw [h3]; rfl
          · injection ht with ht2; subst ht2; rw [h4]; rfl
          · injection ht with ht2; subst ht2; rw [h5]; rfl
          · injection ht with ht2; subst ht2; rw [h6]; rfl
        rw [hs]

theorem c4_resolution_witness :
    lookupAssoc ([("x", PValue.num 3)] : Params) TRANSFORMATION_TYPE = none ∧
      get_transformation_function [("x", PValue.num 3)] = none :=
  ⟨rfl, c4_resolution.2.1 [("x", PValue.num 3)] rfl⟩

theorem double_sigmoid_formula_low_eq_high (v l dv c : ℚ) :
    double_sigmoid_formula v l l dv c c = 0 := by
  unfold double_sigmoid_formula double_sigmoid_raw
  cases h1 : safeDiv v dv with
  | none => simp [h1]
  | some tv =>
    cases h2 : pow10 (c * tv) with
    | none => simp [h1, h2]
    | some a =>
      cases h3 : safeDiv l dv with
      | none => simp [h1, h2, h3]
      | some tl =>
        cases h4 : pow10 (c * tl) with
        | none => simp [h1, h2, h3, h4]
        | some pl =>
          cases h5 : safeDiv a (a + pl) with
          | none => simp [h1, h2, h3, h4, h5]
          | some c0 => simp [h1, h2, h3, h4, h5]

/-- Claim C8 counterexample: with `low == high == 0` but `coef_si = 1` and
`coef_se = 2`, `double_sigmoid` of the single score 1 evaluates without any
fault to `100/101 - 10/11 = 90/1111`, which is not `0.0`, so `low == high`
alone does not make the affected elements 0. -/
theorem c8_counterexample :
    double_sigmoid [(1 : ℚ)]
      [(LOW, PValue.num 0), (HIGH, PValue.num 0), (COEF_DIV, PValue.num 1),
       (COEF_SI, PValue.num 1), (COEF_SE, PValue.num 2)] = some [(90 / 1111 : ℚ)] ∧
      (90 / 1111 : ℚ) ≠ 0 := by
  constructor
  · have e1 : double_sigmoid [(1 : ℚ)]
        [(LOW, PValue.num 0), (HIGH, PValue.num 0), (COEF_DIV, PValue.num 1),
         (COEF_SI, PValue.num 1), (COEF_SE, PValue.num 2)] =
        some [double_sigmoid_formula 1 0 0 1 1 2] := rfl
    rw [e1]
    have e2 : double_sigmoid_formula 1 0 0 1 1 2 = 90 / 1111 := by
      unfold double_sigmoid_formula double_sigmoid_raw
      norm_num [safeDiv, pow10, Option.some_bind, Option.none_bind,
        Rat.den_ofNat, Rat.num_ofNat]
    rw [e2]
  · norm_num

/-- Claim C8, amended: when the parameters give `low == high` and also equal
`coef_si` and `coef_se` coefficients (as the default coefficients are), the
two sigmoid halves of `_double_sigmoid_formula` coincide and every element of
the result is `0.0`, with no error raised; a faulting element is defaulted to
the same `0.0` by the containment, so the whole call returns a zero list. -/
theorem c8_low_eq_high_amended (preds : List ℚ) (p : Params) (l dv c : ℚ)
    (hl : lookupNum p LOW = some l) (hh : lookupNum p HIGH = some l)
    (hdv : lookupNum p COEF_DIV = some dv) (hsi : lookupNum p COEF_SI = some c)
    (hse : lookupNum p COEF_SE = some c) :
    double_sigmoid preds p = some (preds.map fun _ => (0 : ℚ)) := by
  have e1 : double_sigmoid preds p =
      some (preds.map fun pred_val => double_sigmoid_formula pred_val l l dv c c) := by
    simp [double_sigmoid, hl, hh, hdv, hsi, hse]
  rw [e1]
  simp [double_sigmoid_formula_low_eq_high]

theorem c8_low_eq_high_amended_witness :
    double_sigmoid [(1 : ℚ), 7]
      [(LOW, PValue.num 3), (HIGH, PValue.num 3), (COEF_DIV, PValue.num 100),
       (COEF_SI, PValue.num 150), (COEF_SE, PValue.num 150)] =
      some ([(1 : ℚ), 7].map fun _ => (0 : ℚ)) :=
  c8_low_eq_high_amended [(1 : ℚ), 7]
    [(LOW, PValue.num 3), (HIGH, PValue.num 3), (COEF_DIV, PValue.num 100),
     (COEF_SI, PValue.num 150), (COEF_SE, PValue.num 150)]
    3 100 150 rfl rfl rfl rfl rfl

end TransformationFactory
